import Mathlib

/-!
# Verification of webUtil security-boundary logic

A shallow embedding of the security core of the `webUtil` middleware
collection (packages `cookie`, `secure`, `fileserver`): HMAC-signed cookies,
per-request CSP nonces and header construction, and hardened static-file
serving.  Go strings that carry binary or attacker-controlled data are
modelled as lists of bytes (`Fin 256`); configuration strings are modelled
as Lean `String`s.  The Go standard-library primitives the code calls
(`encoding/base64`, `crypto/sha256`, `crypto/hmac`, `strings.Cut`) are
embedded faithfully, including Go's non-strict base64 decoding, which
accepts non-zero trailing padding bits in the final quantum.
-/

namespace WebUtil

set_option maxRecDepth 400000

/-- A byte, as in a Go `byte`. -/
abbrev Byte := Fin 256

/-- A Go string or `[]byte`, as its byte sequence. -/
abbrev Bytes := List Byte

/-! ## encoding/base64

Model of Go `encoding/base64` for the three encodings the code uses:
`URLEncoding` (padded, URL alphabet) for cookie payloads and signatures,
and `RawStdEncoding` (unpadded, standard alphabet) for the CSP nonce.
Go's decoder is modelled in its default (non-strict) mode: in the final
quantum the spare low bits of the last symbol are ignored, not required to
be zero (`Encoding.Strict` would enforce that, and the code does not use
it).  Line-feed skipping is irrelevant here (no cookie value under study
contains `\r` or `\n` and every single-bit mutation that produces one also
changes the effective length off a multiple of four, which errors anyway),
so it is not modelled. -/

/-- The base64url alphabet (`encoding/base64.URLEncoding`), as bytes. -/
def b64urlAlphabet : Bytes :=
  ("ABCDEFGHIJKLMNOPQRSTUVWXYZabcdefghijklmnopqrstuvwxyz0123456789-_".toList).map
    (fun c => Fin.ofNat c.toNat)

/-- The standard base64 alphabet (`encoding/base64.StdEncoding`), as bytes. -/
def b64stdAlphabet : Bytes :=
  ("ABCDEFGHIJKLMNOPQRSTUVWXYZabcdefghijklmnopqrstuvwxyz0123456789+/".toList).map
    (fun c => Fin.ofNat c.toNat)

/-- The padding byte `'='`. -/
def padByte : Byte := 61

/-- The symbol for a 6-bit digit (out-of-range indices cannot arise from
the encoders below, which only produce digits `< 64`). -/
def encDigit (alpha : Bytes) (d : Nat) : Byte := alpha.getD d 0

/-- Decode one symbol to its 6-bit digit: its index in the alphabet. -/
def decDigit (alpha : Bytes) (c : Byte) : Option Nat :=
  List.findIdx? (fun x => x == c) alpha

/-- Padded base64 encoding (Go `Encoding.EncodeToString` with padding),
three input bytes per four output symbols. -/
def b64encodePad (alpha : Bytes) : Bytes → Bytes
  | [] => []
  | [b0] =>
      [encDigit alpha (b0.val / 4), encDigit alpha (b0.val % 4 * 16), padByte, padByte]
  | [b0, b1] =>
      [encDigit alpha (b0.val / 4), encDigit alpha (b0.val % 4 * 16 + b1.val / 16),
       encDigit alpha (b1.val % 16 * 4), padByte]
  | b0 :: b1 :: b2 :: rest =>
      encDigit alpha (b0.val / 4) ::
      encDigit alpha (b0.val % 4 * 16 + b1.val / 16) ::
      encDigit alpha (b1.val % 16 * 4 + b2.val / 64) ::
      encDigit alpha (b2.val % 64) ::
      b64encodePad alpha rest

/-- Unpadded base64 encoding (Go raw encodings: `RawStdEncoding`). -/
def b64encodeRaw (alpha : Bytes) : Bytes → Bytes
  | [] => []
  | [b0] =>
      [encDigit alpha (b0.val / 4), encDigit alpha (b0.val % 4 * 16)]
  | [b0, b1] =>
      [encDigit alpha (b0.val / 4), encDigit alpha (b0.val % 4 * 16 + b1.val / 16),
       encDigit alpha (b1.val % 16 * 4)]
  | b0 :: b1 :: b2 :: rest =>
      encDigit alpha (b0.val / 4) ::
      encDigit alpha (b0.val % 4 * 16 + b1.val / 16) ::
      encDigit alpha (b1.val % 16 * 4 + b2.val / 64) ::
      encDigit alpha (b2.val % 64) ::
      b64encodeRaw alpha rest

/-- First byte of a decoded quantum: top 6 bits from `d0`, 2 from `d1`. -/
def quadByte0 (d0 d1 : Nat) : Byte := Fin.ofNat (d0 * 4 + d1 / 16)

/-- Second byte of a decoded quantum. -/
def quadByte1 (d1 d2 : Nat) : Byte := Fin.ofNat (d1 % 16 * 16 + d2 / 4)

/-- Third byte of a decoded quantum. -/
def quadByte2 (d2 d3 : Nat) : Byte := Fin.ofNat (d2 % 4 * 64 + d3)

/-- Padded base64 decoding, modelling Go `Encoding.DecodeString` with
padding required and in the default non-strict mode: the final quantum may
be `cc==` (one byte) or `ccc=` (two bytes), padding may only appear there,
an input length not a multiple of four is an error, and spare trailing
bits of the final symbol are ignored rather than required to be zero. -/
def b64decodePad (alpha : Bytes) : Bytes → Option Bytes
  | [] => some []
  | c0 :: c1 :: c2 :: c3 :: rest =>
    match decDigit alpha c0, decDigit alpha c1 with
    | some d0, some d1 =>
      if c2 = padByte ∧ c3 = padByte ∧ rest = [] then
        some [quadByte0 d0 d1]
      else if c3 = padByte ∧ rest = [] then
        match decDigit alpha c2 with
        | some d2 => some [quadByte0 d0 d1, quadByte1 d1 d2]
        | none => none
      else
        match decDigit alpha c2, decDigit alpha c3, b64decodePad alpha rest with
        | some d2, some d3, some bs =>
            some (quadByte0 d0 d1 :: quadByte1 d1 d2 :: quadByte2 d2 d3 :: bs)
        | _, _, _ => none
    | _, _ => none
  | _ => none

/-! ## crypto/sha256 and crypto/hmac

A direct embedding of SHA-256 (FIPS 180-4) and HMAC (RFC 2104) as the Go
standard library computes them, over byte lists, with 32-bit words as
`Nat` reduced modulo `2 ^ 32`. -/

/-- The sixty-four SHA-256 round constants. -/
def sha256K : List Nat :=
  [1116352408, 1899447441, 3049323471, 3921009573, 961987163,
   1508970993, 2453635748, 2870763221, 3624381080, 310598401,
   607225278, 1426881987, 1925078388, 2162078206, 2614888103,
   3248222580, 3835390401, 4022224774, 264347078, 604807628,
   770255983, 1249150122, 1555081692, 1996064986, 2554220882,
   2821834349, 2952996808, 3210313671, 3336571891, 3584528711,
   113926993, 338241895, 666307205, 773529912, 1294757372,
   1396182291, 1695183700, 1986661051, 2177026350, 2456956037,
   2730485921, 2820302411, 3259730800, 3345764771, 3516065817,
   3600352804, 4094571909, 275423344, 430227734, 506948616,
   659060556, 883997877, 958139571, 1322822218, 1537002063,
   1747873779, 1955562222, 2024104815, 2227730452, 2361852424,
   2428436474, 2756734187, 3204031479, 3329325298]

/-- The SHA-256 initial hash value. -/
def sha256H0 : List Nat :=
  [1779033703, 3144134277, 1013904242, 2773480762, 1359893119,
   2600822924, 528734635, 1541459225]

/-- Right rotation of a 32-bit word. -/
def rotr32 (x n : Nat) : Nat := ((x >>> n) ||| (x <<< (32 - n))) % 2 ^ 32

/-- SHA-256 `Σ0`. -/
def bigSigma0 (x : Nat) : Nat := rotr32 x 2 ^^^ rotr32 x 13 ^^^ rotr32 x 22

/-- SHA-256 `Σ1`. -/
def bigSigma1 (x : Nat) : Nat := rotr32 x 6 ^^^ rotr32 x 11 ^^^ rotr32 x 25

/-- SHA-256 `σ0`. -/
def smallSigma0 (x : Nat) : Nat := rotr32 x 7 ^^^ rotr32 x 18 ^^^ (x >>> 3)

/-- SHA-256 `σ1`. -/
def smallSigma1 (x : Nat) : Nat := rotr32 x 17 ^^^ rotr32 x 19 ^^^ (x >>> 10)

/-- SHA-256 `Ch`, with bitwise negation as xor against the all-ones word. -/
def chWord (x y z : Nat) : Nat := (x &&& y) ^^^ ((x ^^^ 4294967295) &&& z)

/-- SHA-256 `Maj`. -/
def majWord (x y z : Nat) : Nat := (x &&& y) ^^^ (x &&& z) ^^^ (y &&& z)

/-- One message-schedule extension step: append `W[t]` for the next `t`. -/
def scheduleStep (w : List Nat) : List Nat :=
  w ++ [(smallSigma1 (w.getD (w.length - 2) 0) + w.getD (w.length - 7) 0 +
         smallSigma0 (w.getD (w.length - 15) 0) + w.getD (w.length - 16) 0) % 2 ^ 32]

/-- Extend the sixteen block words to the full sixty-four-word schedule. -/
def fullSchedule (w : List Nat) : List Nat := scheduleStep^[48] w

/-- One SHA-256 compression round on the working variables `[a..h]`. -/
def compressRound (st : List Nat) (kw : Nat × Nat) : List Nat :=
  match st with
  | [a, b, c, d, e, f, g, h] =>
      let t1 := (h + bigSigma1 e + chWord e f g + kw.1 + kw.2) % 2 ^ 32
      let t2 := (bigSigma0 a + majWord a b c) % 2 ^ 32
      [(t1 + t2) % 2 ^ 32, a, b, c, (d + t1) % 2 ^ 32, e, f, g]
  | st => st

/-- Compress one sixteen-word block into the running hash state. -/
def compressBlock (h : List Nat) (block : List Nat) : List Nat :=
  let w := fullSchedule block
  let s := (List.zip sha256K w).foldl compressRound h
  (List.zip h s).map (fun p => (p.1 + p.2) % 2 ^ 32)

/-- An eight-byte big-endian encoding of a natural number. -/
def be64 (n : Nat) : Bytes :=
  [Fin.ofNat (n >>> 56), Fin.ofNat (n >>> 48), Fin.ofNat (n >>> 40),
   Fin.ofNat (n >>> 32), Fin.ofNat (n >>> 24), Fin.ofNat (n >>> 16),
   Fin.ofNat (n >>> 8), Fin.ofNat n]

/-- SHA-256 message padding: `0x80`, zeros to fifty-six mod sixty-four,
then the bit length as eight big-endian bytes. -/
def sha256Pad (msg : Bytes) : Bytes :=
  msg ++ (0x80 : Byte) :: List.replicate ((119 - msg.length % 64) % 64) 0 ++
    be64 (8 * msg.length)

/-- Big-endian 32-bit words from bytes, four at a time. -/
def toWords : Bytes → List Nat
  | b0 :: b1 :: b2 :: b3 :: rest =>
      (b0.val * 2 ^ 24 + b1.val * 2 ^ 16 + b2.val * 2 ^ 8 + b3.val) :: toWords rest
  | _ => []

/-- Split a word list into sixteen-word blocks. -/
def toBlocks : List Nat → List (List Nat)
  | w0 :: w1 :: w2 :: w3 :: w4 :: w5 :: w6 :: w7 ::
    w8 :: w9 :: w10 :: w11 :: w12 :: w13 :: w14 :: w15 :: rest =>
      [w0, w1, w2, w3, w4, w5, w6, w7, w8, w9, w10, w11, w12, w13, w14, w15] ::
        toBlocks rest
  | _ => []

/-- A 32-bit word as four big-endian bytes. -/
def wordBytes (w : Nat) : Bytes :=
  [Fin.ofNat (w >>> 24), Fin.ofNat (w >>> 16), Fin.ofNat (w >>> 8), Fin.ofNat w]

/-- SHA-256 of a byte sequence (Go `crypto/sha256.Sum256`). -/
def sha256 (msg : Bytes) : Bytes :=
  let blocks := toBlocks (toWords (sha256Pad msg))
  ((blocks.foldl compressBlock sha256H0).map wordBytes).flatten

/-- Byte xor. -/
def xorByte (b : Byte) (m : Nat) : Byte := Fin.ofNat (b.val ^^^ m)

/-- HMAC-SHA256 (Go `crypto/hmac` with `sha256.New`): hash an over-long
key, zero-pad to the sixty-four-byte block size, then the nested hash over
the inner- and outer-padded keys. -/
def hmacSha256 (key msg : Bytes) : Bytes :=
  let k0 := if 64 < key.length then sha256 key else key
  let k := k0 ++ List.replicate (64 - k0.length) (0 : Byte)
  sha256 ((k.map (fun b => xorByte b 0x5c)) ++
    sha256 ((k.map (fun b => xorByte b 0x36)) ++ msg))

/-! ## package cookie

`src/cookie/cookie.go`.  An HTTP request's cookie jar is modelled as an
association list of name/value byte strings (`http.Request.Cookie` returns
the first cookie of the given name, or an error when absent, modelled as
`Option`); the response is modelled as the list of `Set-Cookie` records
emitted so far, in order. -/

/-- One `Set-Cookie` record with the attributes the package sets.
`sameSite` carries the numeric value of Go's `http.SameSite` constants
(`0` = unset zero value, `3` = `http.SameSiteStrictMode`); `expiresUnix`
is the `Expires` attribute as Unix seconds. -/
structure HttpCookie where
  name : Bytes
  value : Bytes
  path : String
  expiresUnix : Int
  maxAge : Int
  httpOnly : Bool
  secure : Bool
  sameSite : Nat
deriving DecidableEq, Repr

/-- Go `strings.Cut(s, "|")`: the pieces before and after the first `'|'`
(byte `124`), or `none` when the separator does not occur. -/
def cutPipe : Bytes → Option (Bytes × Bytes)
  | [] => none
  | c :: rest =>
      if c = (124 : Byte) then some ([], rest)
      else
        match cutPipe rest with
        | some p => some (c :: p.1, p.2)
        | none => none

/-- Go `hmac.Equal`: constant-time in Go, extensionally byte-sequence
equality (`subtle.ConstantTimeCompare` reports a mismatch for any length
difference, so unequal lengths also compare false). -/
def hmacEqual (a b : Bytes) : Bool := a == b

/-- Flip bit `k` of the byte at position `i` (a single-bit transmission
mutation of a wire string). -/
def flipBitByte (b : Byte) (k : Nat) : Byte := Fin.ofNat (b.val ^^^ 2 ^ k)

/-- A byte string with bit `k` of byte `i` flipped. -/
def flipBitAt (bs : Bytes) (i k : Nat) : Bytes :=
  bs.set i (flipBitByte (bs.getD i 0) k)

/-- A `CookieManager` holds the HMAC secret key. -/
structure CookieManager where
  SecretKey : Bytes

/-- The method `CookieManager.sign`: HMAC-SHA256 of the value under the secret key,
base64 URL-encoded. -/
def CookieManager.sign (cm : CookieManager) (value : Bytes) : Bytes :=
  b64encodePad b64urlAlphabet (hmacSha256 cm.SecretKey value)

/-- The wire value `SetCookie` stores: `base64(value) + "|" + signature`. -/
def CookieManager.setCookieValue (cm : CookieManager) (value : Bytes) : Bytes :=
  b64encodePad b64urlAlphabet value ++ (124 : Byte) :: cm.sign value

/-- The method `CookieManager.SetCookie`: append the signed cookie to the response,
with the fixed attribute policy (`Path=/`, `HttpOnly`, `Secure`,
`SameSite=Strict`, `Expires = now + maxAge`, `MaxAge = maxAge`).  `now`
makes `time.Now()` explicit. -/
def CookieManager.SetCookie (cm : CookieManager) (w : List HttpCookie)
    (name value : Bytes) (maxAge : Int) (now : Int) : List HttpCookie :=
  w ++ [{ name := name, value := cm.setCookieValue value, path := "/",
          expiresUnix := now + maxAge, maxAge := maxAge,
          httpOnly := true, secure := true, sameSite := 3 }]

/-- The method `CookieManager.ReadCookie`: look the cookie up, split at the first
`'|'`, base64-decode the payload, recompute the HMAC and compare; every
failure returns the empty string (`[]`). -/
def CookieManager.ReadCookie (cm : CookieManager)
    (cookies : List (Bytes × Bytes)) (name : Bytes) : Bytes :=
  match cookies.lookup name with
  | none => []
  | some cookieValue =>
    match cutPipe cookieValue with
    | none => []
    | some (encodedValue, signature) =>
      match b64decodePad b64urlAlphabet encodedValue with
      | none => []
      | some data =>
        let value := data
        if hmacEqual signature (cm.sign value) then value else []

/-- The method `CookieManager.DelCookie`: append the deletion record — empty value,
`Expires` at the Unix epoch (`time.Unix(0, 0)`), `MaxAge = -1`. -/
def CookieManager.DelCookie (_cm : CookieManager) (w : List HttpCookie)
    (name : Bytes) : List HttpCookie :=
  w ++ [{ name := name, value := [], path := "/", expiresUnix := 0,
          maxAge := -1, httpOnly := true, secure := true, sameSite := 0 }]

/-- The method `CookieManager.ReadFlash`: read, then unconditionally delete; returns
the read value and the updated response. -/
def CookieManager.ReadFlash (cm : CookieManager) (w : List HttpCookie)
    (cookies : List (Bytes × Bytes)) (name : Bytes) : Bytes × List HttpCookie :=
  let msg := cm.ReadCookie cookies name
  (msg, cm.DelCookie w name)

/-- The disjunction of `ReadCookie`'s four failure modes: cookie absent,
no `'|'` separator, payload base64 decode failure, or HMAC mismatch. -/
def readFailure (cm : CookieManager) (cookies : List (Bytes × Bytes))
    (name : Bytes) : Prop :=
  cookies.lookup name = none ∨
  (∃ cv, cookies.lookup name = some cv ∧
    (cutPipe cv = none ∨
     ∃ ev sg, cutPipe cv = some (ev, sg) ∧
       (b64decodePad b64urlAlphabet ev = none ∨
        ∃ data, b64decodePad b64urlAlphabet ev = some data ∧
          hmacEqual sg (cm.sign data) = false)))


/-! ## package secure: nonce generation -/

/-- The constant `NonceSize`. -/
def NonceSize : Nat := 16

/-- The function `cryptoRandNonce`, with the `crypto/rand` entropy draw made explicit
as the argument: the bytes read from the secure random source.  The
written nonce is their unpadded standard-alphabet base64 encoding
(`base64.RawStdEncoding.Encode`, truncated to
`RawStdEncoding.EncodedLen NonceSize = 22` symbols, exactly the symbols
the encoder produces for sixteen bytes). -/
def cryptoRandNonce (buf : Bytes) : Bytes := b64encodeRaw b64stdAlphabet buf


/-! ## package secure: CSP construction -/

/-- A `CSPConfig`: each directive slot is `none` for a nil Go slice
(directive omitted entirely) or `some` a source list (emitted, possibly
empty).  The zero value — all slots nil — is the default. -/
structure CSPConfig where
  DefaultSrc : Option (List String) := none
  StyleSrc : Option (List String) := none
  ScriptSrc : Option (List String) := none
  ImgSrc : Option (List String) := none
  FontSrc : Option (List String) := none
  ConnectSrc : Option (List String) := none
  FrameSrc : Option (List String) := none
  MediaSrc : Option (List String) := none
  ObjectSrc : Option (List String) := none
  ManifestSrc : Option (List String) := none
  FormAction : Option (List String) := none

/-- The function `buildCSP`'s inner `addDirective` closure: skip a nil slot, copy the
source list (`make` + `copy`, the identity on the list's contents — the
allocation behaviour is modelled separately at the slice level), append
the nonce token when asked, and emit `"<name> <space-joined values>"`
onto the accumulated directives. -/
def addDirective (nonceStr : String) (directives : List String) (name : String)
    (values : Option (List String)) (addNonce : Bool) : List String :=
  match values with
  | none => directives
  | some vs =>
      let allValues := vs
      let allValues := if addNonce then allValues ++ [nonceStr] else allValues
      directives ++ [name ++ " " ++ String.intercalate " " allValues]

/-- The function `buildCSP`: the eleven `addDirective` calls in source order, then the
`"; "` join. -/
def buildCSP (config : CSPConfig) (nonce : String) : String :=
  let nonceStr := "'nonce-" ++ nonce ++ "'"
  let directives : List String := []
  let directives := addDirective nonceStr directives "default-src" config.DefaultSrc true
  let directives := addDirective nonceStr directives "style-src" config.StyleSrc true
  let directives := addDirective nonceStr directives "script-src" config.ScriptSrc true
  let directives := addDirective nonceStr directives "img-src" config.ImgSrc false
  let directives := addDirective nonceStr directives "font-src" config.FontSrc false
  let directives := addDirective nonceStr directives "connect-src" config.ConnectSrc false
  let directives := addDirective nonceStr directives "frame-src" config.FrameSrc false
  let directives := addDirective nonceStr directives "media-src" config.MediaSrc false
  let directives := addDirective nonceStr directives "object-src" config.ObjectSrc false
  let directives := addDirective nonceStr directives "manifest-src" config.ManifestSrc false
  let directives := addDirective nonceStr directives "form-action" config.FormAction false
  String.intercalate "; " directives

/-- The claim's directive table: directive name, configuration slot and
nonce-injection flag, in the documented fixed order. -/
def cspDirectiveTable (config : CSPConfig) :
    List (String × Option (List String) × Bool) :=
  [("default-src", config.DefaultSrc, true),
   ("style-src", config.StyleSrc, true),
   ("script-src", config.ScriptSrc, true),
   ("img-src", config.ImgSrc, false),
   ("font-src", config.FontSrc, false),
   ("connect-src", config.ConnectSrc, false),
   ("frame-src", config.FrameSrc, false),
   ("media-src", config.MediaSrc, false),
   ("object-src", config.ObjectSrc, false),
   ("manifest-src", config.ManifestSrc, false),
   ("form-action", config.FormAction, false)]

/-- One table entry rendered per the claim's words: a nil slot is
skipped, a set slot becomes `"<name> <space-joined sources>"` with the
token `'nonce-<nonce>'` appended to the flagged source lists. -/
def emitDirective (nonce : String) (e : String × Option (List String) × Bool) :
    Option String :=
  e.2.1.map (fun vs => e.1 ++ " " ++ String.intercalate " "
    (if e.2.2 then vs ++ ["'nonce-" ++ nonce ++ "'"] else vs))

/-- Modelled from the spec: iterate the fixed directive order,
emit exactly the set slots, inject the nonce into exactly the three
flagged directives, and join the emitted strings with `"; "`. -/
def buildCSPSpec (config : CSPConfig) (nonce : String) : String :=
  String.intercalate "; " ((cspDirectiveTable config).filterMap (emitDirective nonce))

/-- The all-unset configuration (the Go zero value). -/
def cspConfigUnset : CSPConfig := {}

/-- Go `Header.Set`: replace any previous value of the header. -/
def headerSet (headers : List (String × String)) (k v : String) :
    List (String × String) :=
  headers.filter (fun p => p.1 != k) ++ [(k, v)]

/-- The header-writing step of the `NonceHeaders` middleware: set the
`Content-Security-Policy` header exactly when `buildCSP` returned a
non-empty string. -/
def nonceHeadersApply (config : CSPConfig) (nonce : String)
    (headers : List (String × String)) : List (String × String) :=
  let cspValue := buildCSP config nonce
  if cspValue ≠ "" then headerSet headers "Content-Security-Policy" cspValue
  else headers

/-- The function `GetNonce`'s observable outcome: a panic or the returned string. -/
inductive NonceLookup where
  | panicked (msg : String)
  | value (s : String)
deriving DecidableEq, Repr

/-- The function `GetNonce`: the request-context value under the nonce key is `none`
exactly when the `NonceHeaders` middleware did not run for the request;
then the function panics with `"nonce empty"`, otherwise it returns the
stored string. -/
def GetNonce : Option String → NonceLookup
  | none => .panicked "nonce empty"
  | some s => .value s

/-- The context value the `NonceHeaders` middleware stores. -/
def nonceHeadersContextValue (nonce : String) : Option String := some nonce


/-! ## package fileserver

`src/fileserver/fileserver.go`.  The underlying `http.FileSystem` is an
abstract open function; an `http.File` is observed through its `Stat`
outcome; a handler's effect on the response is the ordered list of events
it emits (headers set, error responses, body writes). -/

/-- A file-system error as the handler distinguishes them
(`os.IsNotExist`, `os.IsPermission`, anything else). -/
inductive FsError where
  | notExist
  | permission
  | other
deriving DecidableEq, Repr

/-- The `os.FileInfo` facts the wrapper consults. -/
structure FileInfo where
  isDir : Bool
deriving DecidableEq, Repr

/-- An `http.File` as the wrapper observes it: its `Stat` outcome. -/
structure HttpFile where
  stat : Except FsError FileInfo
deriving Repr

/-- The method `noListFileSystem.Open`: pass open and stat failures through, and map
an opened directory to `os.ErrPermission` (the handle is closed), never
returning an open directory handle. -/
def noListOpen (openFn : String → Except FsError HttpFile) (name : String) :
    Except FsError HttpFile :=
  match openFn name with
  | .error e => .error e
  | .ok f =>
    match f.stat with
    | .error e => .error e
    | .ok s => if s.isDir then .error .permission else .ok f

/-- One response-side effect of a handler, in emission order. -/
inductive RespEvent where
  | setHeader (name value : String)
  | errorResp (status : Nat)
  | body (src : String)
deriving DecidableEq, Repr

/-- An `os.Stat` outcome on the fast path. -/
inductive StatResult where
  | statFile
  | statDir
  | statNotExist
  | statOtherError
deriving DecidableEq, Repr

/-- The fast path of `Run`'s handler (roots of type `http.Dir`): stat the
joined path — missing is `httperror.NotFound` (404), another stat error
500, a directory `httperror.Forbidden` (403, no body); for a regular
file the caching policy header is applied and then `http.ServeFile`
streams the body. -/
def fastPathHandler (stat : StatResult) (cacheMaxAgeSeconds : Int) :
    List RespEvent :=
  match stat with
  | .statNotExist => [.errorResp 404]
  | .statOtherError => [.errorResp 500]
  | .statDir => [.errorResp 403]
  | .statFile =>
      (if cacheMaxAgeSeconds > 0 then
        [.setHeader "Cache-Control"
          ("public, max-age=" ++ toString cacheMaxAgeSeconds)]
      else if cacheMaxAgeSeconds < 0 then
        [.setHeader "Cache-Control" "no-store"]
      else []) ++ [.body "http.ServeFile"]

/-- The general path of `Run`'s handler: open through the
`noListFileSystem`; `os.ErrPermission` maps to 403, a missing entry to
404, anything else to 500; on success the caching policy header (the
same duplicated if-chain as the fast path) and then the wrapped
`http.FileServer` body. -/
def generalPathHandler (openResult : Except FsError HttpFile)
    (cacheMaxAgeSeconds : Int) : List RespEvent :=
  match openResult with
  | .error .permission => [.errorResp 403]
  | .error .notExist => [.errorResp 404]
  | .error .other => [.errorResp 500]
  | .ok _ =>
      (if cacheMaxAgeSeconds > 0 then
        [.setHeader "Cache-Control"
          ("public, max-age=" ++ toString cacheMaxAgeSeconds)]
      else if cacheMaxAgeSeconds < 0 then
        [.setHeader "Cache-Control" "no-store"]
      else []) ++ [.body "http.FileServer"]

/-- The Cache-Control policy of the spec, determined solely by the sign
of the configured age: `public, max-age=<n>` for positive, `no-store`
for negative, no header for zero. -/
def cacheControlEvents (n : Int) : List RespEvent :=
  if n > 0 then
    [.setHeader "Cache-Control" ("public, max-age=" ++ toString n)]
  else if n < 0 then
    [.setHeader "Cache-Control" "no-store"]
  else []


/-! ## Slice-level model of buildCSP (claim C10)

Whether `buildCSP` mutates its configuration is a question about Go slice
aliasing, so here `addDirective` is modelled once more at the level of
slice headers over a store of backing arrays, with Go's `make`, `copy`
and `append` semantics (`append` writes in place into spare capacity and
reallocates otherwise).  The configuration's source lists are slice
headers into the pre-existing store. -/

/-- A Go slice header: backing-array id, offset, length, capacity. -/
structure GoSlice where
  arr : Nat
  off : Nat
  len : Nat
  cap : Nat
deriving DecidableEq, Repr

/-- The store of backing arrays; cell `i` holds array `i`'s elements. -/
abbrev SliceHeap := List (List String)

/-- The elements a slice views. -/
def sliceRead (h : SliceHeap) (s : GoSlice) : List String :=
  ((h.getD s.arr []).drop s.off).take s.len

/-- Go `make([]string, n)`: a fresh array of `n` empty strings, viewed by a
slice with `len = cap = n`. -/
def goMake (h : SliceHeap) (n : Nat) : SliceHeap × GoSlice :=
  (h ++ [List.replicate n ""], ⟨h.length, 0, n, n⟩)

/-- Write consecutive elements into an array starting at index `i`. -/
def writeSeq (a : List String) (i : Nat) : List String → List String
  | [] => a
  | x :: xs => writeSeq (a.set i x) (i + 1) xs

/-- Go `copy(dst, src)`: write `min dst.len src.len` elements of `src` into
`dst`'s backing array at `dst`'s offset. -/
def goCopy (h : SliceHeap) (dst src : GoSlice) : SliceHeap :=
  h.set dst.arr
    (writeSeq (h.getD dst.arr []) dst.off ((sliceRead h src).take dst.len))

/-- Go `append(s, x)`: in place into spare capacity when `len < cap`,
otherwise into a freshly allocated array (the runtime's growth factor is
irrelevant to aliasing; the fresh array holds the appended contents). -/
def goAppend (h : SliceHeap) (s : GoSlice) (x : String) : SliceHeap × GoSlice :=
  if s.len < s.cap then
    (h.set s.arr ((h.getD s.arr []).set (s.off + s.len) x),
     ⟨s.arr, s.off, s.len + 1, s.cap⟩)
  else
    (h ++ [sliceRead h s ++ [x]], ⟨h.length, 0, s.len + 1, s.len + 1⟩)

/-- A `CSPConfig` at the slice level: each slot a slice header or nil. -/
structure CSPConfigS where
  DefaultSrc : Option GoSlice := none
  StyleSrc : Option GoSlice := none
  ScriptSrc : Option GoSlice := none
  ImgSrc : Option GoSlice := none
  FontSrc : Option GoSlice := none
  ConnectSrc : Option GoSlice := none
  FrameSrc : Option GoSlice := none
  MediaSrc : Option GoSlice := none
  ObjectSrc : Option GoSlice := none
  ManifestSrc : Option GoSlice := none
  FormAction : Option GoSlice := none
deriving DecidableEq, Repr

/-- The closure `addDirective` at the slice level, threading the store and the
accumulated directive strings: `allValues := make([]string, len(values))`,
`copy(allValues, values)`, the conditional `append` of the nonce token,
then the emitted string reads the final view. -/
def addDirectiveS (nonceStr : String) (st : SliceHeap × List String)
    (name : String) (values : Option GoSlice) (addNonce : Bool) :
    SliceHeap × List String :=
  match values with
  | none => st
  | some vs =>
      let p1 := goMake st.1 vs.len
      let h2 := goCopy p1.1 p1.2 vs
      let p3 := if addNonce then goAppend h2 p1.2 nonceStr else (h2, p1.2)
      (p3.1, st.2 ++ [name ++ " " ++ String.intercalate " " (sliceRead p3.1 p3.2)])

/-- The function `buildCSP` at the slice level: the eleven calls in source order over
an initial store, returning the final store and the header value. -/
def buildCSPS (h : SliceHeap) (config : CSPConfigS) (nonce : String) :
    SliceHeap × String :=
  let nonceStr := "'nonce-" ++ nonce ++ "'"
  let st : SliceHeap × List String := (h, [])
  let st := addDirectiveS nonceStr st "default-src" config.DefaultSrc true
  let st := addDirectiveS nonceStr st "style-src" config.StyleSrc true
  let st := addDirectiveS nonceStr st "script-src" config.ScriptSrc true
  let st := addDirectiveS nonceStr st "img-src" config.ImgSrc false
  let st := addDirectiveS nonceStr st "font-src" config.FontSrc false
  let st := addDirectiveS nonceStr st "connect-src" config.ConnectSrc false
  let st := addDirectiveS nonceStr st "frame-src" config.FrameSrc false
  let st := addDirectiveS nonceStr st "media-src" config.MediaSrc false
  let st := addDirectiveS nonceStr st "object-src" config.ObjectSrc false
  let st := addDirectiveS nonceStr st "manifest-src" config.ManifestSrc false
  let st := addDirectiveS nonceStr st "form-action" config.FormAction false
  (st.1, String.intercalate "; " st.2)


/-! ## Supporting lemmas: base64 and byte strings -/

/-- Building a byte back from a byte's value is the identity. -/
lemma ofNat_val_eq (b : Byte) : (Fin.ofNat b.val : Byte) = b := by
  apply Fin.ext
  simp [Fin.ofNat, Nat.mod_eq_of_lt b.isLt]

/-- Decoding inverts encoding on every URL-alphabet digit. -/
lemma decEnc_url_fin :
    ∀ d : Fin 64, decDigit b64urlAlphabet (encDigit b64urlAlphabet d.val) = some d.val := by
  decide

/-- Lemma `decEnc_url_fin`, for a bounded natural digit. -/
lemma decEnc_url (d : Nat) (hd : d < 64) :
    decDigit b64urlAlphabet (encDigit b64urlAlphabet d) = some d :=
  decEnc_url_fin ⟨d, hd⟩

/-- The URL alphabet has sixty-four symbols. -/
lemma b64urlAlphabet_length : b64urlAlphabet.length = 64 := by decide

/-- No URL-alphabet symbol is the `'|'` separator. -/
lemma encDigit_url_ne_pipe (d : Nat) : encDigit b64urlAlphabet d ≠ (124 : Byte) := by
  by_cases h : d < 64
  · exact (by decide :
      ∀ d : Fin 64, encDigit b64urlAlphabet d.val ≠ (124 : Byte)) ⟨d, h⟩
  · rw [encDigit, List.getD_eq_default _ _ (by rw [b64urlAlphabet_length]; omega)]
    decide

/-- No URL-alphabet symbol is the `'='` padding byte. -/
lemma encDigit_url_ne_pad (d : Nat) : encDigit b64urlAlphabet d ≠ padByte := by
  by_cases h : d < 64
  · exact (by decide :
      ∀ d : Fin 64, encDigit b64urlAlphabet d.val ≠ padByte) ⟨d, h⟩
  · rw [encDigit, List.getD_eq_default _ _ (by rw [b64urlAlphabet_length]; omega)]
    decide

/-- A padded URL-alphabet encoding never contains the `'|'` separator. -/
lemma pipe_not_mem_encodePad : ∀ bs : Bytes, (124 : Byte) ∉ b64encodePad b64urlAlphabet bs
  | [] => by simp [b64encodePad]
  | [b0] => by
      simp only [b64encodePad, List.mem_cons, List.not_mem_nil, or_false]
      push_neg
      exact ⟨(encDigit_url_ne_pipe _).symm, (encDigit_url_ne_pipe _).symm,
        by decide, by decide⟩
  | [b0, b1] => by
      simp only [b64encodePad, List.mem_cons, List.not_mem_nil, or_false]
      push_neg
      exact ⟨(encDigit_url_ne_pipe _).symm, (encDigit_url_ne_pipe _).symm,
        (encDigit_url_ne_pipe _).symm, by decide⟩
  | b0 :: b1 :: b2 :: rest => by
      have ih := pipe_not_mem_encodePad rest
      simp only [b64encodePad, List.mem_cons]
      push_neg
      exact ⟨(encDigit_url_ne_pipe _).symm, (encDigit_url_ne_pipe _).symm,
        (encDigit_url_ne_pipe _).symm, (encDigit_url_ne_pipe _).symm, ih⟩

/-- Go's padded base64 decoding inverts the padded encoding. -/
lemma dec_enc_url : ∀ bs : Bytes,
    b64decodePad b64urlAlphabet (b64encodePad b64urlAlphabet bs) = some bs
  | [] => rfl
  | [b0] => by
      have h0 := decEnc_url (b0.val / 4) (by omega)
      have h1 := decEnc_url (b0.val % 4 * 16) (by omega)
      have hb := b0.isLt
      simp [b64encodePad, b64decodePad, h0, h1, quadByte0]
      apply Fin.ext
      simp [Fin.ofNat]
      omega
  | [b0, b1] => by
      have h0 := decEnc_url (b0.val / 4) (by omega)
      have h1 := decEnc_url (b0.val % 4 * 16 + b1.val / 16) (by omega)
      have h2 := decEnc_url (b1.val % 16 * 4) (by omega)
      have hb0 := b0.isLt
      have hb1 := b1.isLt
      simp [b64encodePad, b64decodePad, h0, h1, h2, encDigit_url_ne_pad,
        quadByte0, quadByte1]
      constructor <;> (apply Fin.ext; simp [Fin.ofNat]; omega)
  | b0 :: b1 :: b2 :: rest => by
      have ih := dec_enc_url rest
      have h0 := decEnc_url (b0.val / 4) (by omega)
      have h1 := decEnc_url (b0.val % 4 * 16 + b1.val / 16) (by omega)
      have h2 := decEnc_url (b1.val % 16 * 4 + b2.val / 64) (by omega)
      have h3 := decEnc_url (b2.val % 64) (by omega)
      have hb0 := b0.isLt
      have hb1 := b1.isLt
      have hb2 := b2.isLt
      simp [b64encodePad, b64decodePad, h0, h1, h2, h3, encDigit_url_ne_pad, ih,
        quadByte0, quadByte1, quadByte2]
      refine ⟨?_, ?_, ?_⟩ <;> (apply Fin.ext; simp [Fin.ofNat]; omega)

/-- The function `cutPipe` splits a pipe-free piece off at the separator that follows it. -/
lemma cutPipe_append (e s : Bytes) (he : (124 : Byte) ∉ e) :
    cutPipe (e ++ (124 : Byte) :: s) = some (e, s) := by
  induction e with
  | nil => simp [cutPipe]
  | cons c cs ih =>
      have hc : ¬ c = (124 : Byte) := fun h => he (by simp [h])
      rw [List.cons_append, cutPipe]
      simp [hc, ih (fun h => he (List.mem_cons_of_mem _ h))]

/-- Flipping a bit below the byte width changes the byte. -/
lemma flipBitByte_ne (b : Byte) (k : Nat) (hk : k < 8) : flipBitByte b k ≠ b := by
  intro h
  have h2k : (2 : Nat) ^ k < 2 ^ 8 := Nat.pow_lt_pow_right (by omega) hk
  have hxor : b.val ^^^ 2 ^ k < 2 ^ 8 :=
    Nat.xor_lt_two_pow (by simp) h2k
  have hv : (flipBitByte b k).val = b.val ^^^ 2 ^ k := by
    simp [flipBitByte, Fin.ofNat]
    omega
  rw [h] at hv
  have h0 := congrArg (fun x => b.val ^^^ x) hv
  simp only [Nat.xor_self, ← Nat.xor_assoc, Nat.zero_xor] at h0
  have : (0 : Nat) < 2 ^ k := Nat.pos_pow_of_pos k (by omega)
  omega

/-- Flipping a bit of a byte in range changes the byte string. -/
lemma set_flip_ne (s : Bytes) (j k : Nat) (hj : j < s.length) (hk : k < 8) :
    s.set j (flipBitByte (s.getD j 0) k) ≠ s := by
  intro h
  rw [List.getD_eq_getElem s 0 hj] at h
  have hl : j < (s.set j (flipBitByte (s[j]) k)).length := by
    simpa using hj
  have h1 : (s.set j (flipBitByte (s[j]) k))[j] = flipBitByte (s[j]) k :=
    List.getElem_set_self hl
  simp only [h] at h1
  exact flipBitByte_ne _ k hk h1.symm

/-! ## Cookie lemmas -/

/-- A freshly signed cookie reads back to its original value. -/
lemma ReadCookie_setCookieValue (cm : CookieManager) (name value : Bytes)
    (rest : List (Bytes × Bytes)) :
    cm.ReadCookie ((name, cm.setCookieValue value) :: rest) name = value := by
  have hcut := cutPipe_append (b64encodePad b64urlAlphabet value) (cm.sign value)
    (pipe_not_mem_encodePad value)
  simp [CookieManager.ReadCookie, CookieManager.setCookieValue, List.lookup_cons,
    hcut, dec_enc_url, hmacEqual]

/-- Any single-bit mutation in the signature segment of a signed cookie's
wire value makes the read fail with the absent result. -/
lemma ReadCookie_flip_signature (cm : CookieManager) (name value : Bytes)
    (rest : List (Bytes × Bytes)) (i k : Nat)
    (hi : (b64encodePad b64urlAlphabet value).length < i)
    (hi2 : i < (cm.setCookieValue value).length) (hk : k < 8) :
    cm.ReadCookie ((name, flipBitAt (cm.setCookieValue value) i k) :: rest) name
      = [] := by
  set e := b64encodePad b64urlAlphabet value with he
  set s := cm.sign value with hs
  have hwire : cm.setCookieValue value = e ++ (124 : Byte) :: s := rfl
  have hlen : (cm.setCookieValue value).length = e.length + 1 + s.length := by
    rw [hwire]
    simp only [List.length_append, List.length_cons]
    omega
  set j := i - (e.length + 1) with hj
  have hjs : j < s.length := by omega
  have hieq : i - e.length = j + 1 := by omega
  have hget : (cm.setCookieValue value).getD i 0 = s.getD j 0 := by
    rw [hwire, List.getD_append_right _ _ _ _ (by omega), hieq, List.getD_cons_succ]
  have hset : (cm.setCookieValue value).set i (flipBitByte (s.getD j 0) k)
      = e ++ (124 : Byte) :: s.set j (flipBitByte (s.getD j 0) k) := by
    rw [hwire, List.set_append, if_neg (by omega), hieq, List.set_cons_succ]
  have hflip : flipBitAt (cm.setCookieValue value) i k
      = e ++ (124 : Byte) :: s.set j (flipBitByte (s.getD j 0) k) := by
    rw [flipBitAt, hget, hset]
  have hcut := cutPipe_append e (s.set j (flipBitByte (s.getD j 0) k))
    (by rw [he]; exact pipe_not_mem_encodePad value)
  have hdec : b64decodePad b64urlAlphabet e = some value := by
    rw [he]; exact dec_enc_url value
  have hne : hmacEqual (s.set j (flipBitByte (s.getD j 0) k)) (cm.sign value)
      = false := by
    rw [hmacEqual, beq_eq_false_iff_ne, ← hs]
    exact set_flip_ne s j k hjs hk
  simp only [CookieManager.ReadCookie, List.lookup_cons, beq_self_eq_true,
    hflip, hcut, hdec, hne]
  simp

/-! ## Claims C1, C2, C8 -/

/-- C1 (counterexample): the claim that every single-bit mutation of the
payload segment is rejected is false.  With secret key `"k"`, name `"n"`
and value `"A"`, the wire value starts with payload `"QQ=="`; flipping bit
1 of byte 1 turns it into `"QS=="`, a genuinely different wire string, yet
Go's non-strict base64 decoding ignores the flipped trailing bits, decodes
it to `"A"` again, the recomputed HMAC matches, and `ReadCookie` returns
`"A"` rather than the absent result. -/
theorem payloadBitFlip_accepted_counterexample :
    flipBitAt ((CookieManager.mk [107]).setCookieValue [65]) 1 1
        ≠ (CookieManager.mk [107]).setCookieValue [65] ∧
    (CookieManager.mk [107]).ReadCookie
        [([110], flipBitAt ((CookieManager.mk [107]).setCookieValue [65]) 1 1)]
        [110] = [65] := by
  constructor
  · decide
  · decide

/-- C1 (amended): the signed-cookie round trip holds for every key, name
and value — reading a cookie whose wire value was produced by `SetCookie`
with the same key returns the original value — and every single-bit
mutation of the transmitted signature segment makes `ReadCookie` return
the absent result.  (Single-bit mutations of the payload segment are not
always rejected: see the counterexample.) -/
theorem signedCookie_roundtrip_and_signatureFlip_rejected :
    (∀ (cm : CookieManager) (name value : Bytes) (rest : List (Bytes × Bytes)),
      cm.ReadCookie ((name, cm.setCookieValue value) :: rest) name = value) ∧
    (∀ (cm : CookieManager) (name value : Bytes) (rest : List (Bytes × Bytes))
        (i k : Nat),
      (b64encodePad b64urlAlphabet value).length < i →
      i < (cm.setCookieValue value).length → k < 8 →
      cm.ReadCookie ((name, flipBitAt (cm.setCookieValue value) i k) :: rest)
        name = []) :=
  ⟨fun cm name value rest => ReadCookie_setCookieValue cm name value rest,
   fun cm name value rest i k hi hi2 hk =>
     ReadCookie_flip_signature cm name value rest i k hi hi2 hk⟩

/-- C1 (witness): the amended claim at key `"k"`, name `"n"`, value `"A"`,
with the signature-segment bit flip at byte 5, bit 0. -/
theorem signedCookie_roundtrip_and_signatureFlip_witness :
    (CookieManager.mk [107]).ReadCookie
        [([110], (CookieManager.mk [107]).setCookieValue [65])] [110] = [65] ∧
    (CookieManager.mk [107]).ReadCookie
        [([110], flipBitAt ((CookieManager.mk [107]).setCookieValue [65]) 5 0)]
        [110] = [] :=
  ⟨signedCookie_roundtrip_and_signatureFlip_rejected.1
      (CookieManager.mk [107]) [110] [65] [],
   signedCookie_roundtrip_and_signatureFlip_rejected.2
      (CookieManager.mk [107]) [110] [65] [] 5 0 (by decide) (by decide) (by decide)⟩

/-- C2: every failure mode of `ReadCookie` — absent cookie, missing
separator, payload decode failure, or HMAC mismatch — produces the same
observable result, the empty string, so callers cannot distinguish them
by return value. -/
theorem readCookie_failures_collapse
    (cm : CookieManager) (cookies : List (Bytes × Bytes)) (name : Bytes)
    (h : readFailure cm cookies name) :
    cm.ReadCookie cookies name = [] := by
  rcases h with h | ⟨cv, hcv, h | ⟨ev, sg, hes, h | ⟨data, hd, hm⟩⟩⟩ <;>
    simp [CookieManager.ReadCookie, *]

/-- C2 (witness): a cookie value with no separator reads as absent. -/
theorem readCookie_failures_collapse_witness :
    (CookieManager.mk []).ReadCookie [([1], [2])] [1] = [] :=
  readCookie_failures_collapse (CookieManager.mk []) [([1], [2])] [1]
    (Or.inr ⟨[2], by decide, Or.inl (by decide)⟩)

/-- C8: `ReadFlash` returns exactly what `ReadCookie` returns and then
unconditionally emits the deletion cookie via `DelCookie` — a record with
empty value, `MaxAge = -1` and `Expires` at the Unix epoch — for every
request, response and name, also when the read produced the absent
result. -/
theorem readFlash_always_deletes (cm : CookieManager) (w : List HttpCookie)
    (cookies : List (Bytes × Bytes)) (name : Bytes) :
    cm.ReadFlash w cookies name = (cm.ReadCookie cookies name, cm.DelCookie w name) ∧
    cm.DelCookie w name = w ++ [{ name := name, value := [], path := "/",
                                  expiresUnix := 0, maxAge := -1,
                                  httpOnly := true, secure := true,
                                  sameSite := 0 }] :=
  ⟨rfl, rfl⟩

/-- Length of an unpadded base64 encoding. -/
lemma b64encodeRaw_length (alpha : Bytes) : ∀ bs : Bytes,
    (b64encodeRaw alpha bs).length =
      4 * (bs.length / 3) + (if bs.length % 3 = 0 then 0 else bs.length % 3 + 1)
  | [] => by simp [b64encodeRaw]
  | [b0] => by simp [b64encodeRaw]
  | [b0, b1] => by simp [b64encodeRaw]
  | b0 :: b1 :: b2 :: rest => by
      have ih := b64encodeRaw_length alpha rest
      simp only [b64encodeRaw, List.length_cons, ih]
      by_cases hr : rest.length % 3 = 0
      · have h3 : (rest.length + 1 + 1 + 1) % 3 = 0 := by omega
        simp only [hr, h3, if_true]
        omega
      · have h3 : ¬ (rest.length + 1 + 1 + 1) % 3 = 0 := by omega
        simp only [hr, h3, if_false]
        omega

/-- An in-range digit's symbol is an alphabet symbol. -/
lemma encDigit_mem_of_lt (alpha : Bytes) (d : Nat) (h : d < alpha.length) :
    encDigit alpha d ∈ alpha := by
  rw [encDigit, List.getD_eq_getElem alpha 0 h]
  exact List.getElem_mem h

/-- The standard alphabet has sixty-four symbols. -/
lemma b64stdAlphabet_length : b64stdAlphabet.length = 64 := by decide

/-- Every symbol of an unpadded standard-alphabet encoding is a
standard-alphabet symbol. -/
lemma mem_encodeRaw_std : ∀ bs : Bytes,
    ∀ c ∈ b64encodeRaw b64stdAlphabet bs, c ∈ b64stdAlphabet
  | [] => by simp [b64encodeRaw]
  | [b0] => by
      have h := b0.isLt
      intro c hc
      simp only [b64encodeRaw, List.mem_cons, List.not_mem_nil, or_false] at hc
      rcases hc with h1 | h1 <;> subst h1 <;>
        exact encDigit_mem_of_lt _ _ (by rw [b64stdAlphabet_length]; omega)
  | [b0, b1] => by
      have h0 := b0.isLt
      have h1 := b1.isLt
      intro c hc
      simp only [b64encodeRaw, List.mem_cons, List.not_mem_nil, or_false] at hc
      rcases hc with h2 | h2 | h2 <;> subst h2 <;>
        exact encDigit_mem_of_lt _ _ (by rw [b64stdAlphabet_length]; omega)
  | b0 :: b1 :: b2 :: rest => by
      have h0 := b0.isLt
      have h1 := b1.isLt
      have h2 := b2.isLt
      have ih := mem_encodeRaw_std rest
      intro c hc
      simp only [b64encodeRaw, List.mem_cons] at hc
      rcases hc with h3 | h3 | h3 | h3 | h3
      · subst h3; exact encDigit_mem_of_lt _ _ (by rw [b64stdAlphabet_length]; omega)
      · subst h3; exact encDigit_mem_of_lt _ _ (by rw [b64stdAlphabet_length]; omega)
      · subst h3; exact encDigit_mem_of_lt _ _ (by rw [b64stdAlphabet_length]; omega)
      · subst h3; exact encDigit_mem_of_lt _ _ (by rw [b64stdAlphabet_length]; omega)
      · exact ih c h3

/-! ## Claim C4 -/

/-- C4 (counterexample): generated nonces are not confined to the
base64url alphabet.  For the entropy draw whose first byte is `0xFB`, the
nonce's first symbol is `'+'` (the encoder uses the standard alphabet,
`base64.RawStdEncoding`, not base64url), so the claimed alphabet is
wrong even though the length is 22. -/
theorem nonce_not_base64url_counterexample :
    (cryptoRandNonce (251 :: List.replicate 15 0)).length = 22 ∧
    ((cryptoRandNonce (251 :: List.replicate 15 0)).all
      (fun c => b64urlAlphabet.contains c)) = false := by
  constructor
  · decide
  · decide

/-- C4 (amended): every nonce generated from a sixteen-byte entropy draw
has length exactly 22 and consists only of characters of the unpadded
standard base64 alphabet (`A`-`Z`, `a`-`z`, `0`-`9`, `'+'`, `'/'`). -/
theorem nonce_length_and_alphabet (bs : Bytes) (h : bs.length = 16) :
    (cryptoRandNonce bs).length = 22 ∧
    ∀ c ∈ cryptoRandNonce bs, c ∈ b64stdAlphabet := by
  constructor
  · rw [cryptoRandNonce, b64encodeRaw_length, h]
    decide
  · exact mem_encodeRaw_std bs

/-- C4 (witness): the amended claim at the all-zero entropy draw. -/
theorem nonce_length_and_alphabet_witness :
    (cryptoRandNonce (List.replicate 16 0)).length = 22 ∧
    ∀ c ∈ cryptoRandNonce (List.replicate 16 0), c ∈ b64stdAlphabet :=
  nonce_length_and_alphabet (List.replicate 16 0) (by decide)

/-! ## Claims C5, C6, C9 -/

/-- The closure `addDirective` appends to the accumulated directives exactly what the
spec-side rendering emits for the corresponding table entry. -/
lemma addDirective_eq (nonce : String) (ds : List String) (n : String)
    (v : Option (List String)) (b : Bool) :
    addDirective ("'nonce-" ++ nonce ++ "'") ds n v b
      = ds ++ (emitDirective nonce (n, v, b)).toList := by
  cases v <;> simp [addDirective, emitDirective]

/-- Rewriting `filterMap` over a cons, phrased with `Option.toList`. -/
lemma filterMap_cons_toList {α β : Type} (f : α → Option β) (a : α) (l : List α) :
    List.filterMap f (a :: l) = (f a).toList ++ List.filterMap f l := by
  cases h : f a <;> simp [List.filterMap_cons, h]

/-- C5: for every configuration and nonce, `buildCSP` renders exactly the
spec-side description — the fixed directive order `default-src`,
`style-src`, `script-src`, `img-src`, `font-src`, `connect-src`,
`frame-src`, `media-src`, `object-src`, `manifest-src`, `form-action`,
skipping exactly the nil slots (a set empty list is emitted), appending
`'nonce-<nonce>'` to exactly the first three source lists, joined with
`"; "`. -/
theorem buildCSP_matches_spec (config : CSPConfig) (nonce : String) :
    buildCSP config nonce = buildCSPSpec config nonce := by
  simp only [buildCSP, buildCSPSpec, cspDirectiveTable, addDirective_eq,
    filterMap_cons_toList, List.filterMap_nil, List.append_nil, List.nil_append,
    List.append_assoc]

/-- C6: with every directive slot unset, `buildCSP` returns the empty
string, and the `NonceHeaders` middleware then leaves the response
headers untouched — no `Content-Security-Policy` header is set. -/
theorem buildCSP_empty_config_omits_header (nonce : String)
    (headers : List (String × String)) :
    buildCSP cspConfigUnset nonce = "" ∧
    nonceHeadersApply cspConfigUnset nonce headers = headers := by
  have h0 : String.intercalate "; " ([] : List String) = "" := rfl
  refine ⟨rfl, ?_⟩
  simp [nonceHeadersApply, cspConfigUnset, buildCSP, addDirective, h0]

/-- C9: `GetNonce` on a context in which no nonce was stored panics with
`"nonce empty"` rather than returning any value; on the context value the
`NonceHeaders` middleware stores, it returns exactly the stored nonce. -/
theorem getNonce_panics_or_returns_stored :
    GetNonce none = NonceLookup.panicked "nonce empty" ∧
    (∀ nonce, GetNonce (nonceHeadersContextValue nonce) = NonceLookup.value nonce) :=
  ⟨rfl, fun _ => rfl⟩

/-! ## Claims C3, C7 -/

/-- C3: a request that resolves to a directory never reaches a body
write.  The fast path maps a directory to exactly the Forbidden error
response; `noListFileSystem.Open` turns any successfully opened
directory into `os.ErrPermission` instead of a directory handle; and the
general path answers that error with exactly the Forbidden response —
in no case is a body event emitted. -/
theorem directories_never_served :
    (∀ n : Int, fastPathHandler .statDir n = [.errorResp 403]) ∧
    (∀ (openFn : String → Except FsError HttpFile) (name : String)
        (f : HttpFile) (s : FileInfo),
      openFn name = .ok f → f.stat = .ok s → s.isDir = true →
      noListOpen openFn name = .error .permission) ∧
    (∀ n : Int, generalPathHandler (.error .permission) n = [.errorResp 403]) := by
  refine ⟨fun n => rfl, ?_, fun n => rfl⟩
  intro openFn name f s hopen hstat hdir
  simp [noListOpen, hopen, hstat, hdir]

/-- C3 (witness): a one-directory file system at a concrete name. -/
theorem directories_never_served_witness :
    fastPathHandler .statDir 0 = [.errorResp 403] ∧
    noListOpen (fun _ => .ok (HttpFile.mk (.ok (FileInfo.mk true)))) "d"
      = .error .permission ∧
    generalPathHandler (.error .permission) 0 = [.errorResp 403] :=
  ⟨directories_never_served.1 0,
   directories_never_served.2.1 (fun _ => .ok (HttpFile.mk (.ok (FileInfo.mk true))))
     "d" (HttpFile.mk (.ok (FileInfo.mk true))) (FileInfo.mk true) rfl rfl rfl,
   directories_never_served.2.2 0⟩

/-- C7: on both the fast path and the general path, a served file's
response is exactly the Cache-Control events determined by the sign of
`cacheMaxAgeSeconds` — `public, max-age=<n>` for positive, `no-store`
for negative, nothing for zero — followed by the file body, so the
header is always written before the body. -/
theorem cacheControl_by_sign_on_both_paths (n : Int) (f : HttpFile) :
    fastPathHandler .statFile n = cacheControlEvents n ++ [.body "http.ServeFile"] ∧
    generalPathHandler (.ok f) n
      = cacheControlEvents n ++ [.body "http.FileServer"] :=
  ⟨rfl, rfl⟩

/-- Setting the cell just past a store only rewrites that cell. -/
lemma set_append_length {α : Type} (l : List α) (x y : α) :
    (l ++ [x]).set l.length y = l ++ [y] := by
  rw [List.set_append, if_neg (by omega)]
  simp

/-- Reading the cell just past a store. -/
lemma getD_append_length {α : Type} (l : List α) (x d : α) :
    (l ++ [x]).getD l.length d = x := by
  rw [List.getD_append_right _ _ _ _ (by omega)]
  simp

/-- One slice-level `addDirective` call only appends fresh cells to the
store: every write in it targets the array `make` just allocated. -/
lemma addDirectiveS_frame (ns : String) (st : SliceHeap × List String)
    (n : String) (v : Option GoSlice) (b : Bool) :
    ∃ ext, (addDirectiveS ns st n v b).1 = st.1 ++ ext := by
  rcases st with ⟨h, ds⟩
  cases v with
  | none => exact ⟨[], by simp [addDirectiveS]⟩
  | some vs =>
      cases b with
      | false =>
          simp only [addDirectiveS, goMake, goCopy, getD_append_length,
            set_append_length]
          exact ⟨_, rfl⟩
      | true =>
          simp only [addDirectiveS, goMake, goCopy, goAppend,
            getD_append_length, set_append_length, lt_self_iff_false,
            if_false, List.append_assoc]
          exact ⟨_, rfl⟩

/-- Store extensions compose. -/
lemma heap_ext_trans {A B C : SliceHeap} (h1 : ∃ e, B = A ++ e)
    (h2 : ∃ e, C = B ++ e) : ∃ e, C = A ++ e := by
  obtain ⟨e1, r1⟩ := h1
  obtain ⟨e2, r2⟩ := h2
  exact ⟨e1 ++ e2, by rw [r2, r1, List.append_assoc]⟩

/-- Store growth composes across the eleven calls: the slice-level
`buildCSP` only ever appends fresh backing arrays to the store. -/
lemma buildCSPS_frame (h : SliceHeap) (config : CSPConfigS) (nonce : String) :
    ∃ ext, (buildCSPS h config nonce).1 = h ++ ext := by
  simp only [buildCSPS]
  set ns := "'nonce-" ++ nonce ++ "'" with hns
  have c1 := addDirectiveS_frame ns (h, []) "default-src" config.DefaultSrc true
  set s1 := addDirectiveS ns (h, []) "default-src" config.DefaultSrc true with hs1
  have c2 := addDirectiveS_frame ns s1 "style-src" config.StyleSrc true
  set s2 := addDirectiveS ns s1 "style-src" config.StyleSrc true with hs2
  have c3 := addDirectiveS_frame ns s2 "script-src" config.ScriptSrc true
  set s3 := addDirectiveS ns s2 "script-src" config.ScriptSrc true with hs3
  have c4 := addDirectiveS_frame ns s3 "img-src" config.ImgSrc false
  set s4 := addDirectiveS ns s3 "img-src" config.ImgSrc false with hs4
  have c5 := addDirectiveS_frame ns s4 "font-src" config.FontSrc false
  set s5 := addDirectiveS ns s4 "font-src" config.FontSrc false with hs5
  have c6 := addDirectiveS_frame ns s5 "connect-src" config.ConnectSrc false
  set s6 := addDirectiveS ns s5 "connect-src" config.ConnectSrc false with hs6
  have c7 := addDirectiveS_frame ns s6 "frame-src" config.FrameSrc false
  set s7 := addDirectiveS ns s6 "frame-src" config.FrameSrc false with hs7
  have c8 := addDirectiveS_frame ns s7 "media-src" config.MediaSrc false
  set s8 := addDirectiveS ns s7 "media-src" config.MediaSrc false with hs8
  have c9 := addDirectiveS_frame ns s8 "object-src" config.ObjectSrc false
  set s9 := addDirectiveS ns s8 "object-src" config.ObjectSrc false with hs9
  have c10 := addDirectiveS_frame ns s9 "manifest-src" config.ManifestSrc false
  set s10 := addDirectiveS ns s9 "manifest-src" config.ManifestSrc false with hs10
  have c11 := addDirectiveS_frame ns s10 "form-action" config.FormAction false
  set s11 := addDirectiveS ns s10 "form-action" config.FormAction false with hs11
  exact heap_ext_trans (heap_ext_trans (heap_ext_trans (heap_ext_trans
    (heap_ext_trans (heap_ext_trans (heap_ext_trans (heap_ext_trans
      (heap_ext_trans (heap_ext_trans c1 c2) c3) c4) c5) c6) c7) c8) c9) c10) c11

/-! ## Claim C10 -/

/-- C10: the slice-level `buildCSP` never writes to any pre-existing
backing array — the nonce token is appended only to the fresh copy each
`addDirective` allocates — so every slice into the original store, in
particular every directive slice of the shared configuration, reads
byte-for-byte the same before and after the call. -/
theorem buildCSP_preserves_config_heap (h : SliceHeap) (config : CSPConfigS)
    (nonce : String) (s : GoSlice) (hs : s.arr < h.length) :
    sliceRead (buildCSPS h config nonce).1 s = sliceRead h s := by
  obtain ⟨ext, hext⟩ := buildCSPS_frame h config nonce
  rw [hext, sliceRead, sliceRead, List.getD_append _ _ _ _ hs]

/-- C10 (witness): a store holding one source list `["'self'"]`, viewed
by the configuration's `DefaultSrc` slice, is unchanged by the call. -/
theorem buildCSP_preserves_config_heap_witness :
    sliceRead (buildCSPS [["'self'"]] (CSPConfigS.mk (some (GoSlice.mk 0 0 1 1))
        none none none none none none none none none none) "n").1
      (GoSlice.mk 0 0 1 1) = sliceRead [["'self'"]] (GoSlice.mk 0 0 1 1) :=
  buildCSP_preserves_config_heap [["'self'"]]
    (CSPConfigS.mk (some (GoSlice.mk 0 0 1 1))
      none none none none none none none none none none)
    "n" (GoSlice.mk 0 0 1 1) (by decide)

end WebUtil
